import Mathlib

/-!
Verification of the schedule reconciliation and period-compression engine of
the light-monitor bot (`src/main.py`).

The Python functions are embedded shallowly:
* machine integers are `Nat`/`Int` (Python ints are unbounded, so no wrapping);
* Python floats only ever hold exact multiples of `0.5` in this program, so
  durations are modelled as `ℚ`;
* Python dicts are modelled as association lists (first binding wins on
  lookup, insertion order preserved, `aset` models `d[k] = v`);
* JSON values are modelled by the mutual inductive `JsonV`;
* I/O (HTTP fetches, the cache file, Telegram delivery) is modelled by
  explicit parameters: fetched payloads are inputs, the per-part delivery
  outcome is a function `String → Bool`, and the cache file content is an
  `Option String` threaded through `main_cache_after`.
-/

/-! ### Basic string/number helpers -/

/-- Decimal digits of an integer, with a leading minus sign when negative
(Python `str(int)`). -/
def intChars (i : Int) : List Char :=
  if i < 0 then '-' :: Nat.toDigits 10 i.natAbs else Nat.toDigits 10 i.natAbs

/-- Zero-padded two-digit rendering (Python `f"{n:02d}"` for `n ≥ 0`). -/
def twoDigits (n : Nat) : List Char :=
  if n < 10 then '0' :: Nat.toDigits 10 n else Nat.toDigits 10 n

/-- Python `str(float)` restricted to the domain this program produces:
every duration is a half-integer, so a non-integral value `k + 0.5` prints
as `"<k>.5"`.  (Nonnegative in this program; the sign case mirrors Python.) -/
def ratChars (q : ℚ) : List Char :=
  (if q.num < 0 then ['-'] else []) ++ Nat.toDigits 10 (q.num.natAbs / 2) ++ ['.', '5']

/-- `format_hours` from `src/main.py` (lines 48-61): Ukrainian pluralisation
of «година».  The Python float is integral exactly when the rational has
denominator 1, and Python's `%` on nonneg divisors matches `Int.emod`. -/
def format_hours (hours : ℚ) : String :=
  if hours.den = 1 then
    let n := hours.num
    if n % 10 = 1 ∧ n % 100 ≠ 11 then String.mk (intChars n) ++ " година"
    else if (n % 10 = 2 ∨ n % 10 = 3 ∨ n % 10 = 4) ∧
        ¬(n % 100 = 12 ∨ n % 100 = 13 ∨ n % 100 = 14) then
      String.mk (intChars n) ++ " години"
    else String.mk (intChars n) ++ " годин"
  else String.mk (ratChars hours) ++ " години"

/-- `format_time` from `src/main.py` (lines 64-72). -/
def format_time (minutes : Nat) : String :=
  let hours := minutes / 60
  let mins := minutes % 60
  if hours = 24 then "24:00"
  else String.mk (twoDigits hours ++ ':' :: twoDigits mins)

/-- `format_slot_time` from `src/main.py` (lines 75-77). -/
def format_slot_time (slot : Nat) : String := format_time (slot * 30)

/-! ### Period compression (`slots_to_periods`, lines 249-279) -/

/-- One period dict `{"start", "end", "is_on", "hours"}`; the `end` key is
called `stop` because `end` is a Lean keyword. -/
structure Period where
  start : String
  stop : String
  is_on : Bool
  hours : ℚ
  deriving DecidableEq

/-- The scan loop of `slots_to_periods`: `cur` is `current_status`, `start`
is `start_slot`, `i` is the absolute index of the next slot, and the list
argument holds the remaining slots `slots[i:]`.  Produces the periods as
`(start_slot, end_slot, status)` triples. -/
def stpGo (cur : Bool) (start i : Nat) : List Bool → List (Nat × Nat × Bool)
  | [] => [(start, i, cur)]
  | b :: rest =>
    if b = cur then stpGo cur start (i + 1) rest
    else (start, i, cur) :: stpGo b i (i + 1) rest

/-- Builds the period dict appended by the loop: clock strings via
`format_slot_time`, `hours = (end - start) * 0.5`. -/
def mkPeriod (t : Nat × Nat × Bool) : Period :=
  ⟨format_slot_time t.1, format_slot_time t.2.1, t.2.2, Rat.divInt ((t.2.1 : Int) - t.1) 2⟩

/-- `slots_to_periods` from `src/main.py` (lines 249-279). -/
def slots_to_periods (slots : List Bool) : List Period :=
  match slots with
  | [] => []
  | b :: rest => (stpGo b 0 1 rest).map mkPeriod

/-- `schedules_match` from `src/main.py` (lines 282-286). -/
def schedules_match (slots1 slots2 : List Bool) : Bool :=
  if slots1.length ≠ slots2.length then false else slots1 == slots2

/-! #### Invariants of the scan -/

/-- `chainFrom s e l`: the triples in `l` tile the slot range `[s, e)`
contiguously, in order, each with positive width. -/
def chainFrom : Nat → Nat → List (Nat × Nat × Bool) → Prop
  | s, e, [] => s = e
  | s, e, t :: rest => t.1 = s ∧ t.1 < t.2.1 ∧ chainFrom t.2.1 e rest

theorem stpGo_ne_nil (l : List Bool) : ∀ cur start i, stpGo cur start i l ≠ [] := by
  induction l with
  | nil => intro cur start i; simp [stpGo]
  | cons b rest ih =>
    intro cur start i
    by_cases hb : b = cur <;> simp [stpGo, hb, ih]

theorem stpGo_head (l : List Bool) :
    ∀ cur start i, (stpGo cur start i l).head? = some ((stpGo cur start i l).headI) ∧
      ((stpGo cur start i l).headI).1 = start ∧ ((stpGo cur start i l).headI).2.2 = cur := by
  induction l with
  | nil => intro cur start i; simp [stpGo]
  | cons b rest ih =>
    intro cur start i
    by_cases hb : b = cur <;> simp [stpGo, hb, ih]

theorem stpGo_chainFrom (l : List Bool) :
    ∀ cur start i, start < i → chainFrom start (i + l.length) (stpGo cur start i l) := by
  induction l with
  | nil => intro cur start i h; simp [stpGo, chainFrom, h]
  | cons b rest ih =>
    intro cur start i h
    by_cases hb : b = cur
    · have := ih cur start (i + 1) (Nat.lt_succ_of_lt h)
      simpa [stpGo, hb, Nat.add_assoc, Nat.add_comm 1 rest.length] using this
    · have := ih b i (i + 1) (Nat.lt_succ_self i)
      simp only [stpGo, hb, if_neg]
      refine ⟨rfl, h, ?_⟩
      simpa [Nat.add_assoc, Nat.add_comm 1 rest.length] using this

theorem stpGo_alt (l : List Bool) :
    ∀ cur start i, List.Chain' (fun p q : Nat × Nat × Bool => p.2.2 = !q.2.2)
      (stpGo cur start i l) := by
  induction l with
  | nil => intro cur start i; simp [stpGo]
  | cons b rest ih =>
    intro cur start i
    by_cases hb : b = cur
    · simpa [stpGo, hb] using ih cur start (i + 1)
    · simp only [stpGo, hb, if_false]
      rw [List.chain'_cons']
      refine ⟨?_, ih b i (i + 1)⟩
      intro q hq
      have h := stpGo_head rest b i (i + 1)
      rw [h.1] at hq
      obtain rfl : q = (stpGo b i (i + 1) rest).headI := by simpa using hq.symm
      rw [h.2.2]
      cases b <;> cases cur <;> simp_all

theorem chainFrom_le {s e : Nat} {l : List (Nat × Nat × Bool)} (h : chainFrom s e l) :
    s ≤ e := by
  induction l generalizing s with
  | nil => simp [chainFrom] at h; omega
  | cons t rest ih =>
    obtain ⟨h1, h2, h3⟩ := h
    have := ih h3
    omega

theorem chainFrom_mem {s e : Nat} {l : List (Nat × Nat × Bool)} (h : chainFrom s e l) :
    ∀ t ∈ l, s ≤ t.1 ∧ t.1 < t.2.1 ∧ t.2.1 ≤ e := by
  induction l generalizing s with
  | nil => simp
  | cons t rest ih =>
    obtain ⟨h1, h2, h3⟩ := h
    intro u hu
    rcases List.mem_cons.mp hu with rfl | hu
    · exact ⟨le_of_eq h1.symm, h2, chainFrom_le h3⟩
    · have := ih h3 u hu
      omega

theorem chainFrom_adjacent {s e : Nat} {l : List (Nat × Nat × Bool)} (h : chainFrom s e l) :
    List.Chain' (fun p q : Nat × Nat × Bool => p.2.1 = q.1) l := by
  induction l generalizing s with
  | nil => simp
  | cons t rest ih =>
    obtain ⟨h1, h2, h3⟩ := h
    rw [List.chain'_cons']
    refine ⟨?_, ih h3⟩
    intro q hq
    cases rest with
    | nil => simp at hq
    | cons u rest' =>
      obtain ⟨hq1, _, _⟩ := h3
      simp at hq
      subst hq
      exact hq1.symm

theorem chainFrom_last {s e : Nat} {l : List (Nat × Nat × Bool)} (h : chainFrom s e l)
    (hne : l ≠ []) : (l.getLast?).map (fun t => t.2.1) = some e := by
  induction l generalizing s with
  | nil => exact absurd rfl hne
  | cons t rest ih =>
    obtain ⟨h1, h2, h3⟩ := h
    cases rest with
    | nil =>
      simp [chainFrom] at h3
      simp [List.getLast?, h3]
    | cons u rest' =>
      have := ih h3 (by simp)
      simpa [List.getLast?_cons_cons] using this

theorem chainFrom_hours_sum {s e : Nat} {l : List (Nat × Nat × Bool)} (h : chainFrom s e l) :
    ((l.map (fun t => Rat.divInt ((t.2.1 : Int) - t.1) 2)).sum)
      = Rat.divInt ((e : Int) - s) 2 := by
  induction l generalizing s with
  | nil =>
    simp [chainFrom] at h
    subst h
    simp
  | cons t rest ih =>
    obtain ⟨h1, _, h3⟩ := h
    have := ih h3
    subst h1
    simp only [List.map_cons, List.sum_cons, this]
    simp only [Rat.divInt_eq_div]
    push_cast
    ring

/-- C1: for every boolean timeline of length 48, `slots_to_periods` returns a
non-empty ordered list of periods partitioning the day: the first period
starts at `00:00`, each period starts where the previous one ended, the last
ends at `24:00`, consecutive periods have opposite status, each period's
duration is `(end slot - start slot) * 0.5` hours, and the durations sum to
`24`. -/
theorem slots_to_periods_partitions_day (slots : List Bool) (h48 : slots.length = 48) :
    slots_to_periods slots ≠ [] ∧
    ((slots_to_periods slots).head?).map Period.start = some "00:00" ∧
    ((slots_to_periods slots).getLast?).map Period.stop = some "24:00" ∧
    List.Chain' (fun p q : Period => p.stop = q.start) (slots_to_periods slots) ∧
    List.Chain' (fun p q : Period => p.is_on = !q.is_on) (slots_to_periods slots) ∧
    (∀ p ∈ slots_to_periods slots, ∃ a b : Nat, a < b ∧ b ≤ 48 ∧
      p.start = format_slot_time a ∧ p.stop = format_slot_time b ∧
      p.hours = Rat.divInt ((b : Int) - a) 2) ∧
    ((slots_to_periods slots).map Period.hours).sum = 24 := by
  match slots, h48 with
  | b :: rest, h48 =>
  have hrest : rest.length = 47 := by simpa using h48
  have hchain : chainFrom 0 48 (stpGo b 0 1 rest) := by
    have := stpGo_chainFrom rest b 0 1 (by omega)
    simpa [hrest] using this
  have hne := stpGo_ne_nil rest b 0 1
  have hhead := stpGo_head rest b 0 1
  constructor
  · simp [slots_to_periods, hne]
  constructor
  · rcases hl : stpGo b 0 1 rest with _ | ⟨t, ts⟩
    · exact absurd hl hne
    · rw [hl] at hhead
      simp at hhead
      have h00 : format_slot_time 0 = "00:00" := by decide
      simp [slots_to_periods, hl, mkPeriod, hhead.1, h00]
  constructor
  · have hlast := chainFrom_last hchain hne
    rcases hl : (stpGo b 0 1 rest).getLast? with _ | t
    · rw [hl] at hlast; simp at hlast
    · rw [hl] at hlast
      simp at hlast
      have : (slots_to_periods (b :: rest)).getLast? = some (mkPeriod t) := by
        simp [slots_to_periods, List.getLast?_map, hl]
      rw [this]
      have h24 : format_slot_time 48 = "24:00" := by decide
      simp [mkPeriod, hlast, h24]
  constructor
  · have := chainFrom_adjacent hchain
    rw [slots_to_periods, List.chain'_map]
    exact this.imp (fun p q h => by simp [mkPeriod, h])
  constructor
  · have := stpGo_alt rest b 0 1
    rw [slots_to_periods, List.chain'_map]
    exact this.imp (fun p q h => by simp [mkPeriod, h])
  constructor
  · intro p hp
    rw [slots_to_periods, List.mem_map] at hp
    obtain ⟨t, ht, rfl⟩ := hp
    obtain ⟨h1, h2, h3⟩ := chainFrom_mem hchain t ht
    exact ⟨t.1, t.2.1, h2, h3, rfl, rfl, rfl⟩
  · have := chainFrom_hours_sum hchain
    rw [slots_to_periods, List.map_map]
    have heq : (Period.hours ∘ mkPeriod) =
        (fun t : Nat × Nat × Bool => Rat.divInt ((t.2.1 : Int) - t.1) 2) := by
      funext t; simp [mkPeriod]
    rw [heq, this]
    decide

/-- Witness for C1 at a concrete 48-slot timeline. -/
theorem slots_to_periods_partitions_day_witness :
    slots_to_periods (List.replicate 24 true ++ List.replicate 24 false) ≠ [] ∧
    ((slots_to_periods (List.replicate 24 true ++ List.replicate 24 false)).head?).map
      Period.start = some "00:00" ∧
    ((slots_to_periods (List.replicate 24 true ++ List.replicate 24 false)).getLast?).map
      Period.stop = some "24:00" ∧
    List.Chain' (fun p q : Period => p.stop = q.start)
      (slots_to_periods (List.replicate 24 true ++ List.replicate 24 false)) ∧
    List.Chain' (fun p q : Period => p.is_on = !q.is_on)
      (slots_to_periods (List.replicate 24 true ++ List.replicate 24 false)) ∧
    (∀ p ∈ slots_to_periods (List.replicate 24 true ++ List.replicate 24 false),
      ∃ a b : Nat, a < b ∧ b ≤ 48 ∧
      p.start = format_slot_time a ∧ p.stop = format_slot_time b ∧
      p.hours = Rat.divInt ((b : Int) - a) 2) ∧
    ((slots_to_periods (List.replicate 24 true ++ List.replicate 24 false)).map
      Period.hours).sum = 24 :=
  slots_to_periods_partitions_day _ (by decide)

/-! ### JSON values

Python `dict`/`list` JSON payloads are modelled by the mutual inductive
`JsonV`.  Objects are association lists in insertion order (Python dicts
preserve insertion order and cannot contain duplicate keys). -/

mutual
inductive JsonV where
  | null
  | bool (b : Bool)
  | num (n : Int)
  | str (s : String)
  | arr (xs : JArr)
  | obj (kvs : JObj)
  deriving DecidableEq
inductive JArr where
  | nil
  | cons (hd : JsonV) (tl : JArr)
  deriving DecidableEq
inductive JObj where
  | nil
  | cons (k : String) (v : JsonV) (tl : JObj)
  deriving DecidableEq
end

/-- First binding for a key in an object (Python `dict` lookup). -/
def jobjGet : JObj → String → Option JsonV
  | .nil, _ => none
  | .cons k v t, key => if k = key then some v else jobjGet t key

/-- Python `d.get(key)` on a dict; `none` for any non-dict value (where the
dict methods this program uses would not apply). -/
def jget : JsonV → String → Option JsonV
  | .obj kvs, key => jobjGet kvs key
  | _, _ => none

/-- Python truthiness of a JSON value (`if not x`). -/
def jtruthy : JsonV → Bool
  | .null => false
  | .bool b => b
  | .num n => n != 0
  | .str s => s ≠ ""
  | .arr .nil => false
  | .arr (.cons _ _) => true
  | .obj .nil => false
  | .obj (.cons _ _ _) => true

/-- Python truthiness of an optional payload (`None` is falsy). -/
def jtruthyOpt : Option JsonV → Bool
  | none => false
  | some j => jtruthy j

/-! ### GitHub source: `parse_github_day` (lines 94-127) -/

/-- The `if/elif` chain of `parse_github_day`, returning
`(first_half, second_half)` for one hour's status code. -/
def hourHalves (status : JsonV) : Bool × Bool :=
  if status = .str "yes" then (true, true)
  else if status = .str "no" then (false, false)
  else if status = .str "first" then (false, true)
  else if status = .str "second" then (true, false)
  else if status = .str "maybe" ∨ status = .str "mfirst" ∨ status = .str "msecond" then
    (true, true)
  else (true, true)

/-- `parse_github_day` from `src/main.py` (lines 94-127): 48 half-hour slots
from hour codes keyed `"1"`..`"24"`, absent keys defaulting to `"yes"`. -/
def parse_github_day (day_data : JsonV) : List Bool :=
  (List.range' 1 24).flatMap (fun hour =>
    let status := (jget day_data (toString hour)).getD (.str "yes")
    let p := hourHalves status
    [p.1, p.2])

theorem parse_github_day_length (d : JsonV) : (parse_github_day d).length = 48 := by
  have key : ∀ L : List Nat, ((L.flatMap (fun hour =>
      let status := (jget d (toString hour)).getD (.str "yes")
      let p := hourHalves status
      [p.1, p.2])).length) = 2 * L.length := by
    intro L
    induction L with
    | nil => simp
    | cons x t ih => simp [ih]; omega
  have h24 : (List.range' 1 24).length = 24 := by simp
  rw [parse_github_day, key, h24]

theorem parse_github_day_getD (d : JsonV) (h : Nat) (h1 : 1 ≤ h) (h2 : h ≤ 24) :
    (parse_github_day d).getD (2 * (h - 1)) false
      = (hourHalves ((jget d (toString h)).getD (.str "yes"))).1 ∧
    (parse_github_day d).getD (2 * (h - 1) + 1) false
      = (hourHalves ((jget d (toString h)).getD (.str "yes"))).2 := by
  interval_cases h <;> exact ⟨rfl, rfl⟩

theorem hourHalves_default (w : JsonV) (hno : w ≠ .str "no") (hfi : w ≠ .str "first")
    (hse : w ≠ .str "second") : hourHalves w = (true, true) := by
  unfold hourHalves
  split_ifs <;> first | rfl | simp_all

/-- C2: `parse_github_day` returns exactly 48 booleans, hour `h` occupying
slots `2(h-1)` and `2(h-1)+1`; `"no"` clears both halves, `"first"` only the
first, `"second"` only the second, and every other value (including an
absent key) leaves both halves available (fail-open). -/
theorem parse_github_day_spec (day_data : JsonV) (h : Nat) (h1 : 1 ≤ h) (h2 : h ≤ 24) :
    (parse_github_day day_data).length = 48 ∧
    (jget day_data (toString h) = some (.str "no") →
      (parse_github_day day_data).getD (2 * (h - 1)) false = false ∧
      (parse_github_day day_data).getD (2 * (h - 1) + 1) false = false) ∧
    (jget day_data (toString h) = some (.str "first") →
      (parse_github_day day_data).getD (2 * (h - 1)) false = false ∧
      (parse_github_day day_data).getD (2 * (h - 1) + 1) false = true) ∧
    (jget day_data (toString h) = some (.str "second") →
      (parse_github_day day_data).getD (2 * (h - 1)) false = true ∧
      (parse_github_day day_data).getD (2 * (h - 1) + 1) false = false) ∧
    (jget day_data (toString h) ≠ some (.str "no") →
      jget day_data (toString h) ≠ some (.str "first") →
      jget day_data (toString h) ≠ some (.str "second") →
      (parse_github_day day_data).getD (2 * (h - 1)) false = true ∧
      (parse_github_day day_data).getD (2 * (h - 1) + 1) false = true) := by
  obtain ⟨e1, e2⟩ := parse_github_day_getD day_data h h1 h2
  refine ⟨parse_github_day_length day_data, ?_, ?_, ?_, ?_⟩
  · intro hv
    rw [hv] at e1 e2
    exact ⟨e1.trans rfl, e2.trans rfl⟩
  · intro hv
    rw [hv] at e1 e2
    exact ⟨e1.trans rfl, e2.trans rfl⟩
  · intro hv
    rw [hv] at e1 e2
    exact ⟨e1.trans rfl, e2.trans rfl⟩
  · intro hno hfi hse
    cases hv : jget day_data (toString h) with
    | none =>
      rw [hv] at e1 e2
      exact ⟨e1.trans rfl, e2.trans rfl⟩
    | some w =>
      rw [hv] at e1 e2
      have hw : hourHalves w = (true, true) := by
        apply hourHalves_default <;> rintro rfl <;> simp_all
      simp only [Option.getD_some] at e1 e2
      rw [e1, e2, hw]
      exact ⟨rfl, rfl⟩

/-- Witness for C2 at `{"3": "no"}`, hour 3. -/
theorem parse_github_day_spec_witness :
    (parse_github_day (.obj (.cons "3" (.str "no") .nil))).length = 48 ∧
    (parse_github_day (.obj (.cons "3" (.str "no") .nil))).getD 4 false = false ∧
    (parse_github_day (.obj (.cons "3" (.str "no") .nil))).getD 5 false = false ∧
    (parse_github_day (.obj (.cons "3" (.str "no") .nil))).getD 6 false = true := by
  have h := parse_github_day_spec (.obj (.cons "3" (.str "no") .nil)) 3 (by decide) (by decide)
  have h4 := parse_github_day_spec (.obj (.cons "3" (.str "no") .nil)) 4 (by decide) (by decide)
  obtain ⟨hl, hno, -, -, -⟩ := h
  obtain ⟨-, -, -, -, hdef⟩ := h4
  have hv : jget (JsonV.obj (.cons "3" (.str "no") .nil)) (toString (3 : Nat))
      = some (.str "no") := by decide
  obtain ⟨ha, hb⟩ := hno hv
  obtain ⟨hc, -⟩ := hdef (by decide) (by decide) (by decide)
  exact ⟨hl, by simpa using ha, by simpa using hb, by simpa using hc⟩

/-! ### C7: pluralisation of «година» -/

/-- C7: `format_hours` follows the Ukrainian pluralisation rule: fractional
values use «години», integers with last digit 1 (but not 11 mod 100) use
«година», last digit 2-4 (but not 12-14 mod 100) use «години», everything
else uses «годин»; checked both in general and on the spec's literal
examples. -/
theorem format_hours_pluralisation (q : ℚ) :
    (q.den ≠ 1 → format_hours q = String.mk (ratChars q) ++ " години") ∧
    (q.den = 1 → q.num % 10 = 1 → q.num % 100 ≠ 11 →
      format_hours q = String.mk (intChars q.num) ++ " година") ∧
    (q.den = 1 → (q.num % 10 = 2 ∨ q.num % 10 = 3 ∨ q.num % 10 = 4) →
      ¬(q.num % 100 = 12 ∨ q.num % 100 = 13 ∨ q.num % 100 = 14) →
      format_hours q = String.mk (intChars q.num) ++ " години") ∧
    (q.den = 1 → ¬(q.num % 10 = 1 ∧ q.num % 100 ≠ 11) →
      ¬((q.num % 10 = 2 ∨ q.num % 10 = 3 ∨ q.num % 10 = 4) ∧
        ¬(q.num % 100 = 12 ∨ q.num % 100 = 13 ∨ q.num % 100 = 14)) →
      format_hours q = String.mk (intChars q.num) ++ " годин") ∧
    format_hours 1 = "1 година" ∧
    format_hours 2 = "2 години" ∧
    format_hours 3 = "3 години" ∧
    format_hours 4 = "4 години" ∧
    format_hours 5 = "5 годин" ∧
    format_hours 11 = "11 годин" ∧
    format_hours 12 = "12 годин" ∧
    format_hours (Rat.divInt 3 2) = "1.5 години" := by
  refine ⟨?_, ?_, ?_, ?_, by decide, by decide, by decide, by decide,
    by decide, by decide, by decide, by decide⟩
  · intro hden
    rw [format_hours, if_neg hden]
  · intro hden h1 h11
    rw [format_hours, if_pos hden, if_pos ⟨h1, h11⟩]
  · intro hden h24 h1214
    have hnot1 : ¬(q.num % 10 = 1 ∧ q.num % 100 ≠ 11) := by
      rintro ⟨ha, -⟩; omega
    rw [format_hours, if_pos hden, if_neg hnot1, if_pos ⟨h24, h1214⟩]
  · intro hden hnot1 hnot24
    rw [format_hours, if_pos hden, if_neg hnot1, if_neg hnot24]

/-- Witness for C7's conditional clauses at concrete inputs: 21 hours takes
the singular form, 2.5 hours the fractional plural. -/
theorem format_hours_pluralisation_witness :
    format_hours 21 = "21 година" ∧ format_hours (Rat.divInt 5 2) = "2.5 години" := by
  constructor
  · have h := (format_hours_pluralisation 21).2.1 (by decide) (by decide) (by decide)
    rw [h]; decide
  · have h := (format_hours_pluralisation (Rat.divInt 5 2)).1 (by decide)
    rw [h]; decide

/-! ### C6: the end-to-end `{"3": "no", "4": "first"}` scenario -/

/-- The hour-code payload `{"3": "no", "4": "first"}`. -/
def exampleDay36 : JsonV :=
  .obj (.cons "3" (.str "no") (.cons "4" (.str "first") .nil))

/-- C6 counterexample: for `{"3": "no", "4": "first"}` the single compressed
outage period is `02:00`-`03:30` (hour 3 is 02:00-03:00), not the
`02:00`-`04:30` stated by the spec; no period ends at `04:30`. -/
theorem exampleDay36_not_0430 :
    ((slots_to_periods (parse_github_day exampleDay36)).filter
        (fun p => p.is_on = false)).map (fun p => (p.start, p.stop))
      = [("02:00", "03:30")] ∧
    ¬ ∃ p ∈ slots_to_periods (parse_github_day exampleDay36), p.stop = "04:30" := by
  constructor
  · decide
  · decide

/-- C6 amended: the outage from hour 3 and the outage from the first half of
hour 4 compress into one contiguous outage period — a single outage period
`02:00`-`03:30` (1.5 h), flanked by two available periods. -/
theorem exampleDay36_single_outage :
    slots_to_periods (parse_github_day exampleDay36) =
      [⟨"00:00", "02:00", true, 2⟩,
       ⟨"02:00", "03:30", false, Rat.divInt 3 2⟩,
       ⟨"03:30", "24:00", true, Rat.divInt 41 2⟩] := by
  decide

/-! ### Yasno source: `parse_yasno_day` (lines 181-205) -/

/-- A JSON array as a Lean list. -/
def jarrToList : JArr → List JsonV
  | .nil => []
  | .cons x t => x :: jarrToList t

/-- Python `slot.get(key, 0)` followed by integer use.  A present
non-numeric value would make Python's `//` raise `TypeError`; such
ill-typed payloads are outside the modelled domain and map to the
default `0` here. -/
def jintD (o : Option JsonV) : Int :=
  match o with
  | some (.num n) => n
  | some _ => 0
  | none => 0

/-- The write loop `for i in range(i0, i0 + n): slots[i] = v`. -/
def setRangeGo (l : List Bool) (i n : Nat) (v : Bool) : List Bool :=
  match n with
  | 0 => l
  | m + 1 => setRangeGo (l.set i v) (i + 1) m v

/-- `for i in range(start_idx, min(end_idx, 48)): slots[i] = is_on` with
integer bounds.  Minute offsets in this API are nonnegative, so the slot
indices are too; a negative start index (which Python's `range` plus
negative list indexing would treat end-relatively) is outside the modelled
domain. -/
def setRangeInt (l : List Bool) (a b : Int) (v : Bool) : List Bool :=
  setRangeGo l a.toNat (b.toNat - a.toNat) v

/-- The body of the interval loop of `parse_yasno_day` (lines 191-203):
apply one `{start, end, type}` interval to the slot array.
`True = power on (NotPlanned)`, `False = outage (any other type)`. -/
def apply_interval (slots : List Bool) (iv : JsonV) : List Bool :=
  let start_min := jintD (jget iv "start")
  let end_min := jintD (jget iv "end")
  let slot_type := (jget iv "type").getD (.str "NotPlanned")
  let start_idx := start_min / 30
  let end_idx := end_min / 30
  let is_on := slot_type == .str "NotPlanned"
  setRangeInt slots start_idx (min end_idx 48) is_on

/-- `parse_yasno_day` from `src/main.py` (lines 181-205).  A falsy
`day_data` or one without a `"slots"` key returns the all-available
default; a non-list `"slots"` value (over which Python's `for` would raise)
is outside the modelled domain and also maps to the default. -/
def parse_yasno_day (day_data : JsonV) : List Bool :=
  if jtruthy day_data = false then List.replicate 48 true
  else
    match jget day_data "slots" with
    | some (.arr ivs) => (jarrToList ivs).foldl apply_interval (List.replicate 48 true)
    | some _ => List.replicate 48 true
    | none => List.replicate 48 true

theorem setRangeGo_length (n : Nat) : ∀ (l : List Bool) (i : Nat) (v : Bool),
    (setRangeGo l i n v).length = l.length := by
  induction n with
  | zero => intro l i v; rfl
  | succ m ih =>
    intro l i v
    rw [setRangeGo, ih]
    simp

theorem setRangeGo_getD_outside (n : Nat) : ∀ (l : List Bool) (i j : Nat) (v d : Bool),
    (j < i ∨ i + n ≤ j) → (setRangeGo l i n v).getD j d = l.getD j d := by
  induction n with
  | zero => intro l i j v d _; rfl
  | succ m ih =>
    intro l i j v d hj
    rw [setRangeGo, ih _ _ _ _ _ (by omega)]
    simp only [List.getD_eq_getElem?_getD]
    rw [List.getElem?_set_ne (by omega)]

theorem setRangeGo_getD_inside (n : Nat) : ∀ (l : List Bool) (i j : Nat) (v d : Bool),
    i ≤ j → j < i + n → j < l.length → (setRangeGo l i n v).getD j d = v := by
  induction n with
  | zero => intro l i j v d _ h _; omega
  | succ m ih =>
    intro l i j v d h1 h2 h3
    rw [setRangeGo]
    by_cases hij : j = i
    · subst hij
      rw [setRangeGo_getD_outside _ _ _ _ _ _ (by omega)]
      simp only [List.getD_eq_getElem?_getD]
      rw [List.getElem?_set_self h3]
      simp
    · exact ih _ _ _ _ _ (by omega) (by omega) (by simpa using h3)

theorem setRangeGo_replicate_true (n : Nat) : ∀ (m i : Nat),
    setRangeGo (List.replicate m true) i n true = List.replicate m true := by
  induction n with
  | zero => intro m i; rfl
  | succ k ih =>
    intro m i
    rw [setRangeGo, List.set_replicate_self, ih]

/-- C3 counterexample: a day whose only interval has the non-firm type
`"Possible"` (not a `Definite` outage) nevertheless gets its covered slots
marked unavailable — the code treats every type other than `"NotPlanned"`
as an outage, not just the firm one. -/
theorem parse_yasno_day_nonfirm_counterexample :
    (parse_yasno_day (.obj (.cons "date" (.str "2025-01-01")
        (.cons "slots" (.arr (.cons (.obj (.cons "start" (.num 0)
          (.cons "end" (.num 60) (.cons "type" (.str "Possible") .nil)))) .nil)) .nil)))).getD
      0 true = false ∧
    parse_yasno_day (.obj (.cons "date" (.str "2025-01-01")
        (.cons "slots" (.arr (.cons (.obj (.cons "start" (.num 0)
          (.cons "end" (.num 60) (.cons "type" (.str "Possible") .nil)))) .nil)) .nil)))
      ≠ List.replicate 48 true := by
  exact ⟨by decide, by decide⟩

/-- C3 amended: starting from all 48 slots available, an interval whose type
is exactly `"NotPlanned"` (or absent, defaulting to it) leaves its covered
slots available, so a day containing only such intervals yields an
all-available timeline; an interval of any *other* type — the firm
`"Definite"` outage or any unrecognised value — marks its covered range
`[start/30, min(end/30, 48))` unavailable (fail-closed). -/
theorem parse_yasno_day_notplanned_only (dd : JsonV) (ivs : JArr)
    (htru : jtruthy dd = true) (hslots : jget dd "slots" = some (.arr ivs)) :
    ((∀ iv ∈ jarrToList ivs,
        jget iv "type" = none ∨ jget iv "type" = some (.str "NotPlanned")) →
      parse_yasno_day dd = List.replicate 48 true) ∧
    (∀ iv s e t, jarrToList ivs = [iv] →
      jget iv "start" = some (.num s) → jget iv "end" = some (.num e) →
      jget iv "type" = some t → t ≠ .str "NotPlanned" → 0 ≤ s →
      ∀ j : Nat, s / 30 ≤ (j : Int) → (j : Int) < min (e / 30) 48 →
        (parse_yasno_day dd).getD j true = false) := by
  have hpy : parse_yasno_day dd
      = (jarrToList ivs).foldl apply_interval (List.replicate 48 true) := by
    rw [parse_yasno_day, if_neg (by simp [htru]), hslots]
  constructor
  · intro hall
    rw [hpy]
    have : ∀ L : List JsonV,
        (∀ iv ∈ L, jget iv "type" = none ∨ jget iv "type" = some (.str "NotPlanned")) →
        L.foldl apply_interval (List.replicate 48 true) = List.replicate 48 true := by
      intro L
      induction L with
      | nil => intro _; rfl
      | cons iv rest ih =>
        intro h
        have hiv := h iv (by simp)
        have hstep : apply_interval (List.replicate 48 true) iv = List.replicate 48 true := by
          have hon : ((jget iv "type").getD (.str "NotPlanned") == JsonV.str "NotPlanned")
              = true := by
            rcases hiv with h | h <;> rw [h] <;> rfl
          rw [apply_interval]
          simp only [hon, setRangeInt]
          exact setRangeGo_replicate_true _ _ _
        rw [List.foldl_cons, hstep]
        exact ih (fun x hx => h x (by simp [hx]))
    exact this _ hall
  · intro iv s e t hone hs he ht htne hs0 j hj1 hj2
    rw [hpy, hone]
    have hoff : ((jget iv "type").getD (.str "NotPlanned") == JsonV.str "NotPlanned")
        = false := by
      rw [ht]
      simp only [Option.getD_some]
      exact beq_eq_false_iff_ne.mpr htne
    have hoff' : (t == JsonV.str "NotPlanned") = false := beq_eq_false_iff_ne.mpr htne
    simp only [List.foldl_cons, List.foldl_nil, apply_interval, hs, he, ht, jintD,
      Option.getD_some, hoff', setRangeInt]
    apply setRangeGo_getD_inside
    · omega
    · omega
    · simp
      omega

/-- Witness for C3's amended claim: a `NotPlanned` interval leaves the day
all-available; a `Definite` interval over minutes 60-180 kills slot 3. -/
theorem parse_yasno_day_notplanned_only_witness :
    parse_yasno_day (.obj (.cons "date" (.str "2025-01-01")
        (.cons "slots" (.arr (.cons (.obj (.cons "start" (.num 0)
          (.cons "end" (.num 120) (.cons "type" (.str "NotPlanned") .nil)))) .nil)) .nil)))
      = List.replicate 48 true ∧
    (parse_yasno_day (.obj (.cons "date" (.str "2025-01-01")
        (.cons "slots" (.arr (.cons (.obj (.cons "start" (.num 60)
          (.cons "end" (.num 180) (.cons "type" (.str "Definite") .nil)))) .nil)) .nil)))).getD
      3 true = false := by
  constructor
  · exact (parse_yasno_day_notplanned_only
      (.obj (.cons "date" (.str "2025-01-01")
        (.cons "slots" (.arr (.cons (.obj (.cons "start" (.num 0)
          (.cons "end" (.num 120) (.cons "type" (.str "NotPlanned") .nil)))) .nil)) .nil)))
      (.cons (.obj (.cons "start" (.num 0)
          (.cons "end" (.num 120) (.cons "type" (.str "NotPlanned") .nil)))) .nil)
      (by decide) rfl).1 (by decide)
  · exact (parse_yasno_day_notplanned_only
      (.obj (.cons "date" (.str "2025-01-01")
        (.cons "slots" (.arr (.cons (.obj (.cons "start" (.num 60)
          (.cons "end" (.num 180) (.cons "type" (.str "Definite") .nil)))) .nil)) .nil)))
      (.cons (.obj (.cons "start" (.num 60)
          (.cons "end" (.num 180) (.cons "type" (.str "Definite") .nil)))) .nil)
      (by decide) rfl).2
      (.obj (.cons "start" (.num 60)
          (.cons "end" (.num 180) (.cons "type" (.str "Definite") .nil))))
      60 180 (.str "Definite") rfl rfl rfl rfl (by decide) (by decide)
      3 (by decide) (by decide)

/-- C8 counterexample: an interval with a *missing start* but present end
is not a zero-length write — it defaults start to 0 and really marks
`[0, end/30)`, changing the timeline. -/
theorem apply_interval_missing_start_not_noop :
    jget (JsonV.obj (.cons "end" (.num 60) (.cons "type" (.str "Definite") .nil))) "start"
      = none ∧
    apply_interval (List.replicate 48 true)
        (.obj (.cons "end" (.num 60) (.cons "type" (.str "Definite") .nil)))
      ≠ List.replicate 48 true := by
  exact ⟨rfl, by decide⟩

/-- C8 amended: an interval whose *end* field is missing defaults that bound
to 0 and performs a zero-length write — a silent no-op leaving every slot
unchanged, with no error — regardless of the other fields (for the
nonnegative start minutes this API produces).  An interval missing only its
*start* defaults it to 0 and genuinely writes `[0, min(end/30, 48))`. -/
theorem apply_interval_missing_end_noop (slots : List Bool) (iv : JsonV)
    (hend : jget iv "end" = none)
    (hstart : jget iv "start" = none ∨ ∃ n : Int, 0 ≤ n ∧ jget iv "start" = some (.num n)) :
    apply_interval slots iv = slots := by
  rw [apply_interval, setRangeInt]
  simp only [hend, jintD]
  have hmin : (min ((0 : Int) / 30) 48) = 0 := by decide
  rw [hmin]
  have hcount : ∀ a : Nat, (0 : Int).toNat - a = 0 := by intro a; simp
  rcases hstart with h | ⟨n, hn, h⟩ <;> rw [h] <;> simp only [jintD, hcount] <;> rfl

/-- Witness for C8's amended claim: a `Definite`-typed interval with start
1746 and no end leaves a mixed timeline untouched. -/
theorem apply_interval_missing_end_noop_witness :
    apply_interval (false :: List.replicate 47 true)
        (.obj (.cons "start" (.num 1746) (.cons "type" (.str "Definite") .nil)))
      = false :: List.replicate 47 true :=
  apply_interval_missing_end_noop _ _ rfl (Or.inr ⟨1746, by decide, rfl⟩)

/-! ### Dates, schedules and generic dict helpers -/

/-- The projection of `datetime` this program consumes: calendar fields for
`strftime` plus `weekday()` (0 = Monday).  `datetime.fromtimestamp` and
`datetime.fromisoformat` are environment/library collaborators and are
passed in as parameters where used. -/
structure Date where
  year : Nat
  month : Nat
  day : Nat
  weekday : Fin 7
  deriving DecidableEq

/-- The `DAYS_UA` table (lines 19-27). -/
def DAYS_UA : Fin 7 → String
  | 0 => "Понеділок"
  | 1 => "Вівторок"
  | 2 => "Середа"
  | 3 => "Четвер"
  | 4 => "П\x27ятниця"
  | 5 => "Субота"
  | 6 => "Неділя"

/-- `SOURCE_GITHUB` (line 30). -/
def SOURCE_GITHUB : String := "outage-data-ua"

/-- `SOURCE_YASNO` (line 31). -/
def SOURCE_YASNO : String := "app.yasno.ua"

/-- Python `date.strftime("%d.%m")`. -/
def strftimeDM (d : Date) : String := String.mk (twoDigits d.day ++ '.' :: twoDigits d.month)

/-- Zero-padded four-digit year (`%Y`). -/
def fourDigits (n : Nat) : List Char :=
  let ds := Nat.toDigits 10 n
  List.replicate (4 - ds.length) '0' ++ ds

/-- Python `date.strftime("%Y-%m-%d")`. -/
def strftimeYMD (d : Date) : String :=
  String.mk (fourDigits d.year ++ '-' :: (twoDigits d.month ++ '-' :: twoDigits d.day))

/-- One stored schedule value `{"slots": ..., "date": ...}`. -/
structure Entry where
  slots : List Bool
  date : Date
  deriving DecidableEq

/-- A per-group schedule: date string → entry, in insertion order. -/
abbrev DaySched := List (String × Entry)

/-- Schedules for all groups: group → per-group schedule. -/
abbrev Schedules := List (String × DaySched)

/-- Python dict lookup on an association list (first binding wins). -/
def alookup {α : Type} : List (String × α) → String → Option α
  | [], _ => none
  | (k, v) :: t, key => if k = key then some v else alookup t key

/-- Python `d[key] = val` on an association list: overwrite in place, else
append (dicts preserve insertion order). -/
def aset {α : Type} : List (String × α) → String → α → List (String × α)
  | [], key, val => [(key, val)]
  | (k, v) :: t, key, val => if k = key then (key, val) :: t else (k, v) :: aset t key val

/-- Lexicographic (code-point) order on strings, as Python compares them. -/
def lexLe : List Char → List Char → Bool
  | a :: as, b :: bs =>
    if a.toNat < b.toNat then true
    else if b.toNat < a.toNat then false
    else lexLe as bs
  | l, _ => l.isEmpty

def strLeB (a b : String) : Bool := lexLe a.data b.data

/-- Stable insertion into a sorted list (used to model Python `sorted`). -/
def insertSorted {α : Type} (le : α → α → Bool) (x : α) : List α → List α
  | [] => [x]
  | y :: ys => if le x y then x :: y :: ys else y :: insertSorted le x ys

/-- Python `sorted` (ascending, stable) by insertion sort. -/
def sortByB {α : Type} (le : α → α → Bool) (l : List α) : List α :=
  l.foldr (insertSorted le) []

/-- Python `str.replace` on char lists, fuelled by the list length (each
step consumes at least one character for the nonempty patterns this
program uses). `stripFront pat l` removes `pat` from the front of `l`. -/
def stripFront : List Char → List Char → Option (List Char)
  | [], l => some l
  | _ :: _, [] => none
  | p :: ps, c :: cs => if c = p then stripFront ps cs else none

def replaceGo (pat rep : List Char) : Nat → List Char → List Char
  | 0, l => l
  | _ + 1, [] => []
  | fuel + 1, c :: cs =>
    match stripFront pat (c :: cs) with
    | some rest => rep ++ replaceGo pat rep fuel rest
    | none => c :: replaceGo pat rep fuel cs

/-- Python `s.replace(pat, rep)` for nonempty `pat`. -/
def replaceAll (s pat rep : String) : String :=
  String.mk (replaceGo pat.data rep.data s.data.length s.data)

/-! ### Message rendering (`format_schedule_message`, lines 291-323) -/

/-- `format_schedule_message` from `src/main.py`: one day's block. -/
def format_schedule_message (periods : List Period) (date : Date)
    (sources : List String) : String :=
  let day_name := DAYS_UA date.weekday
  let date_str := strftimeDM date
  let sources_str := String.intercalate ", " sources
  let header := "🗓 Графік відключень на " ++ date_str ++ " (" ++ day_name ++ ") ["
    ++ sources_str ++ "]:"
  let periodLine := fun (p : Period) =>
    let emoji := if p.is_on then "🔋" else "🪫"
    let hours_text := format_hours p.hours
    let status_text := if p.is_on then "(" ++ hours_text ++ " Світло є)"
      else "(Світла нема " ++ hours_text ++ ")"
    emoji ++ p.start ++ " - " ++ p.stop ++ " " ++ status_text
  let total_on := ((periods.filter (fun p => p.is_on)).map Period.hours).sum
  let total_off := ((periods.filter (fun p => !p.is_on)).map Period.hours).sum
  String.intercalate "\n" ([header, ""] ++ periods.map periodLine
    ++ ["", "Світло є " ++ format_hours total_on, "Світла нема " ++ format_hours total_off])

/-! ### Reconciliation (`format_group_message`, lines 326-391) -/

/-- The `if github_slots and yasno_slots / elif ...` dispatch of the loop
body (lines 357-385), given the two optional slot lists (Python truthiness:
an empty list counts as absent) and the already-selected date. -/
def day_blocks_core (gslots yslots : Option (List Bool)) (date : Date) : List String :=
  match gslots, yslots with
  | some (g0 :: gr), some (y0 :: yr) =>
    if schedules_match (g0 :: gr) (y0 :: yr) then
      [format_schedule_message (slots_to_periods (g0 :: gr)) date [SOURCE_GITHUB, SOURCE_YASNO]]
    else
      [format_schedule_message (slots_to_periods (g0 :: gr)) date [SOURCE_GITHUB],
       format_schedule_message (slots_to_periods (y0 :: yr)) date [SOURCE_YASNO]]
  | some (g0 :: gr), _ =>
    [format_schedule_message (slots_to_periods (g0 :: gr)) date [SOURCE_GITHUB]]
  | _, some (y0 :: yr) =>
    [format_schedule_message (slots_to_periods (y0 :: yr)) date [SOURCE_YASNO]]
  | _, _ => []

/-- The loop body of `format_group_message` for one date (lines 350-385):
`none` models the `TypeError` Python would raise on line 355
(`yasno_data["date"]` with both entries `None`); otherwise the day blocks
appended for this date.  The date is the github entry's if present, else
the yasno entry's. -/
def day_blocks : Option Entry → Option Entry → Option (List String)
  | none, none => none
  | some gd, yd => some (day_blocks_core (some gd.slots) (yd.map Entry.slots) gd.date)
  | none, some yd => some (day_blocks_core none (some yd.slots) yd.date)

/-- The date loop of `format_group_message` (lines 349-385), collecting
`day_messages`; `none` propagates a raise from `day_blocks`. -/
def day_msgs (gmap ymap : DaySched) : List String → Option (List String)
  | [] => some []
  | d :: rest =>
    match day_blocks (alookup gmap d) (alookup ymap d) with
    | none => none
    | some bs => (day_msgs gmap ymap rest).map (fun ms => bs ++ ms)

/-- `format_group_message` from `src/main.py` (lines 326-391).
Result: `none` = an uncaught exception; `some none` = Python `None`
(no content for this group); `some (some s)` = the rendered block. -/
def format_group_message (group : String)
    (github_schedules yasno_schedules : Schedules) : Option (Option String) :=
  let group_num := replaceAll group "GPV" ""
  let header := "============ група " ++ group_num ++ " ============"
  let gmap := (alookup github_schedules group).getD []
  let ymap := (alookup yasno_schedules group).getD []
  let all_dates := sortByB strLeB ((gmap.map Prod.fst ++ ymap.map Prod.fst).dedup)
  if all_dates = [] then some none
  else
    match day_msgs gmap ymap (all_dates.take 2) with
    | none => none
    | some msgs =>
      if msgs = [] then some none
      else some (some (header ++ "\n"
        ++ String.intercalate "\n\n-------------------------------------\n" msgs))

/-- The group loop of `format_full_message` (lines 401-406); `none`
propagates a raise. -/
def collect_group_msgs (ghs yas : Schedules) : List String → Option (List String)
  | [] => some []
  | g :: gs =>
    match format_group_message g ghs yas with
    | none => none
    | some none => collect_group_msgs ghs yas gs
    | some (some m) => (collect_group_msgs ghs yas gs).map (fun ms => m :: ms)

/-- `format_full_message` from `src/main.py` (lines 394-411); outer `none`
= raise, `some none` = Python `None` (nothing to send). -/
def format_full_message (ghs yas : Schedules) (groups : List String) :
    Option (Option String) :=
  (collect_group_msgs ghs yas groups).map (fun msgs =>
    if msgs = [] then none else some (String.intercalate "\n\n\n" msgs))

theorem schedules_match_iff (s1 s2 : List Bool) : schedules_match s1 s2 = true ↔ s1 = s2 := by
  rw [schedules_match]
  split_ifs with h
  · constructor
    · intro hf; cases hf
    · intro he; exact absurd (by rw [he]) h
  · exact beq_iff_eq

/-- C4: reconciliation of a (group, day) pair — both sources present and
identical gives exactly one block labelled with both sources; both present
and differing gives exactly two blocks, github's first, each labelled with
its single source; one source present gives exactly one block with that
label alone. -/
theorem day_blocks_reconciliation (ge ye : Entry)
    (h48g : ge.slots.length = 48) (h48y : ye.slots.length = 48) :
    (ge.slots = ye.slots →
      day_blocks (some ge) (some ye)
        = some [format_schedule_message (slots_to_periods ge.slots) ge.date
            [SOURCE_GITHUB, SOURCE_YASNO]]) ∧
    (ge.slots ≠ ye.slots →
      day_blocks (some ge) (some ye)
        = some [format_schedule_message (slots_to_periods ge.slots) ge.date [SOURCE_GITHUB],
                format_schedule_message (slots_to_periods ye.slots) ge.date [SOURCE_YASNO]]) ∧
    day_blocks (some ge) none
      = some [format_schedule_message (slots_to_periods ge.slots) ge.date [SOURCE_GITHUB]] ∧
    day_blocks none (some ye)
      = some [format_schedule_message (slots_to_periods ye.slots) ye.date [SOURCE_YASNO]] := by
  rcases hg : ge.slots with _ | ⟨g0, gr⟩
  · rw [hg] at h48g; simp at h48g
  rcases hy : ye.slots with _ | ⟨y0, yr⟩
  · rw [hy] at h48y; simp at h48y
  refine ⟨?_, ?_, ?_, ?_⟩
  · intro heq
    have hm : schedules_match (g0 :: gr) (y0 :: yr) = true := by
      rw [schedules_match_iff]; exact heq
    simp only [day_blocks]
    rw [hg]
    simp [day_blocks_core, hm, hy]
  · intro hne
    have hm : schedules_match (g0 :: gr) (y0 :: yr) = false := by
      rw [← Bool.not_eq_true, schedules_match_iff]
      exact hne
    simp only [day_blocks]
    rw [hg]
    simp [day_blocks_core, hm, hy]
  · simp only [day_blocks]
    rw [hg]
    simp [day_blocks_core]
  · simp only [day_blocks]
    rw [hy]
    simp [day_blocks_core]

/-- Witness for C4 on concrete 48-slot entries (differing timelines). -/
theorem day_blocks_reconciliation_witness :
    day_blocks (some ⟨List.replicate 48 true, ⟨2025, 1, 1, 2⟩⟩)
        (some ⟨false :: List.replicate 47 true, ⟨2025, 1, 1, 2⟩⟩)
      = some [format_schedule_message (slots_to_periods (List.replicate 48 true))
                ⟨2025, 1, 1, 2⟩ [SOURCE_GITHUB],
              format_schedule_message (slots_to_periods (false :: List.replicate 47 true))
                ⟨2025, 1, 1, 2⟩ [SOURCE_YASNO]] :=
  (day_blocks_reconciliation ⟨List.replicate 48 true, ⟨2025, 1, 1, 2⟩⟩
    ⟨false :: List.replicate 47 true, ⟨2025, 1, 1, 2⟩⟩ (by decide) (by decide)).2.1 (by decide)

/-! ### C10: totality of the reconciliation loop -/

theorem mem_insertSorted {α : Type} (le : α → α → Bool) (a x : α) :
    ∀ l : List α, x ∈ insertSorted le a l ↔ x = a ∨ x ∈ l := by
  intro l
  induction l with
  | nil => simp [insertSorted]
  | cons y ys ih =>
    rw [insertSorted]
    split_ifs with h
    · simp
    · simp only [List.mem_cons, ih]
      tauto

theorem mem_sortByB {α : Type} (le : α → α → Bool) (x : α) :
    ∀ l : List α, x ∈ sortByB le l ↔ x ∈ l := by
  intro l
  induction l with
  | nil => simp [sortByB]
  | cons y ys ih =>
    rw [sortByB, List.foldr_cons, mem_insertSorted]
    rw [sortByB] at ih
    rw [ih]
    simp

theorem alookup_isSome_of_mem_keys {α : Type} (l : List (String × α)) (k : String)
    (h : k ∈ l.map Prod.fst) : (alookup l k).isSome := by
  induction l with
  | nil => simp at h
  | cons p t ih =>
    rw [alookup]
    split_ifs with hk
    · rfl
    · apply ih
      simp at h
      rcases h with h | h
      · exact absurd h.symm hk
      · simpa using h

theorem day_blocks_eq_none_iff (gd yd : Option Entry) :
    day_blocks gd yd = none ↔ gd = none ∧ yd = none := by
  cases gd <;> cases yd <;> simp [day_blocks]

theorem day_msgs_isSome (gmap ymap : DaySched) :
    ∀ dates : List String,
    (∀ d ∈ dates, (alookup gmap d).isSome ∨ (alookup ymap d).isSome) →
    (day_msgs gmap ymap dates).isSome := by
  intro dates
  induction dates with
  | nil => intro _; rfl
  | cons d rest ih =>
    intro h
    have hd := h d (by simp)
    have hblocks : day_blocks (alookup gmap d) (alookup ymap d) ≠ none := by
      rw [Ne, day_blocks_eq_none_iff]
      rintro ⟨h1, h2⟩
      rw [h1, h2] at hd
      simp at hd
    rw [day_msgs]
    cases hb : day_blocks (alookup gmap d) (alookup ymap d) with
    | none => exact absurd hb hblocks
    | some bs =>
      have := ih (fun x hx => h x (by simp [hx]))
      obtain ⟨ms, hms⟩ := Option.isSome_iff_exists.mp this
      rw [hms]
      rfl

/-- C10: every date the loop of `format_group_message` iterates over comes
from the union of the two sources' date keys for that group, so the date
selection on line 355 never dereferences two missing entries and
`format_group_message` is total (never raises) on all schedule inputs. -/
theorem format_group_message_total (group : String) (ghs yas : Schedules) :
    (format_group_message group ghs yas).isSome = true := by
  simp only [format_group_message]
  split_ifs with hempty
  · rfl
  · have hmem : ∀ d ∈ (sortByB strLeB
        ((((alookup ghs group).getD []).map Prod.fst
          ++ ((alookup yas group).getD []).map Prod.fst).dedup)).take 2,
        (alookup ((alookup ghs group).getD []) d).isSome
          ∨ (alookup ((alookup yas group).getD []) d).isSome := by
      intro d hd
      have hd1 : d ∈ sortByB strLeB
          ((((alookup ghs group).getD []).map Prod.fst
            ++ ((alookup yas group).getD []).map Prod.fst).dedup) := List.take_subset 2 _ hd
      rw [mem_sortByB, List.mem_dedup, List.mem_append] at hd1
      rcases hd1 with h | h
      · exact Or.inl (alookup_isSome_of_mem_keys _ _ h)
      · exact Or.inr (alookup_isSome_of_mem_keys _ _ h)
    have := day_msgs_isSome _ _ _ hmem
    obtain ⟨msgs, hmsgs⟩ := Option.isSome_iff_exists.mp this
    rw [hmsgs]
    dsimp only
    split_ifs <;> rfl

/-! ### C5: the change fingerprint (`compute_combined_hash`, lines 416-422)

`json.dumps(..., sort_keys=True)` is modelled by recursively key-sorting
(`jsort`) and then serialising (`dumpsChars`) with Python's default
separators `", "`/`": "` and `ensure_ascii=True` string escaping
(`escChar`).  `hashlib.sha256(...).hexdigest()` over the UTF-8 bytes is
implemented directly (`sha256hexChars`). -/

/-- Lowercase hex digit. -/
def hexDigit (n : Nat) : Char := "0123456789abcdef".data.getD n '0'

/-- Four lowercase hex digits (`\uXXXX`). -/
def hex4 (n : Nat) : List Char :=
  [hexDigit (n / 4096 % 16), hexDigit (n / 256 % 16), hexDigit (n / 16 % 16), hexDigit (n % 16)]

def unhexDigit (c : Char) : Nat :=
  if c = '0' then 0 else if c = '1' then 1 else if c = '2' then 2 else if c = '3' then 3
  else if c = '4' then 4 else if c = '5' then 5 else if c = '6' then 6 else if c = '7' then 7
  else if c = '8' then 8 else if c = '9' then 9 else if c = 'a' then 10 else if c = 'b' then 11
  else if c = 'c' then 12 else if c = 'd' then 13 else if c = 'e' then 14
  else if c = 'f' then 15 else 0

def unhex4 (d1 d2 d3 d4 : Char) : Nat :=
  4096 * unhexDigit d1 + 256 * unhexDigit d2 + 16 * unhexDigit d3 + unhexDigit d4

/-- Python `json` `ensure_ascii` escaping of one character: the short
escapes, `\uXXXX` for other characters outside `0x20`-`0x7e` (with a UTF-16
surrogate pair above `0xFFFF`), and the character itself otherwise. -/
def escChar (c : Char) : List Char :=
  if c = '"' then ['\\', '"']
  else if c = '\\' then ['\\', '\\']
  else if c = '\n' then ['\\', 'n']
  else if c = '\r' then ['\\', 'r']
  else if c = '\t' then ['\\', 't']
  else if c = '\x08' then ['\\', 'b']
  else if c = '\x0c' then ['\\', 'f']
  else if c.toNat < 0x20 ∨ 0x7e < c.toNat then
    if c.toNat < 0x10000 then '\\' :: 'u' :: hex4 c.toNat
    else
      '\\' :: 'u' :: (hex4 (0xd800 + (c.toNat - 0x10000) / 0x400)
        ++ '\\' :: 'u' :: hex4 (0xdc00 + (c.toNat - 0x10000) % 0x400))
  else [c]

def escList : List Char → List Char
  | [] => []
  | c :: t => escChar c ++ escList t

/-- Decoder for a `\uXXXX` unit: pairs a high surrogate with the following
unit, else takes the code point directly. -/
def decodeU (n : Nat) (r3 : List Char) : Option (Char × List Char) :=
  if 0xd800 ≤ n ∧ n < 0xdc00 then
    match r3 with
    | b1 :: u1 :: e1 :: e2 :: e3 :: e4 :: r4 =>
      if b1 = '\\' ∧ u1 = 'u' then
        some (Char.ofNat (0x10000 + (n - 0xd800) * 0x400 + (unhex4 e1 e2 e3 e4 - 0xdc00)), r4)
      else none
    | _ => none
  else some (Char.ofNat n, r3)

/-- Decoder for one escaped-character chunk; left inverse of `escChar`. -/
def decode1 : List Char → Option (Char × List Char)
  | [] => none
  | c :: r =>
    if c = '\\' then
      match r with
      | [] => none
      | e :: r2 =>
        if e = '"' then some ('"', r2)
        else if e = '\\' then some ('\\', r2)
        else if e = 'n' then some ('\n', r2)
        else if e = 'r' then some ('\r', r2)
        else if e = 't' then some ('\t', r2)
        else if e = 'b' then some ('\x08', r2)
        else if e = 'f' then some ('\x0c', r2)
        else if e = 'u' then
          match r2 with
          | d1 :: d2 :: d3 :: d4 :: r3 => decodeU (unhex4 d1 d2 d3 d4) r3
          | _ => none
        else none
    else some (c, r)

/-- Insert a key/value pair into a key-sorted object (by code-point order,
as Python compares strings). -/
def jobjInsert (k : String) (v : JsonV) : JObj → JObj
  | .nil => .cons k v .nil
  | .cons k2 v2 t =>
    if strLeB k k2 then .cons k v (.cons k2 v2 t) else .cons k2 v2 (jobjInsert k v t)

mutual
/-- Recursively sort all object keys: the effect of `sort_keys=True`. -/
def jsort : JsonV → JsonV
  | .null => .null
  | .bool b => .bool b
  | .num n => .num n
  | .str s => .str s
  | .arr xs => .arr (jsortArr xs)
  | .obj kvs => .obj (jsortObj kvs)
termination_by structural j => j
def jsortArr : JArr → JArr
  | .nil => .nil
  | .cons x t => .cons (jsort x) (jsortArr t)
termination_by structural l => l
def jsortObj : JObj → JObj
  | .nil => .nil
  | .cons k v t => jobjInsert k (jsort v) (jsortObj t)
termination_by structural l => l
end

mutual
/-- `json.dumps` with the default separators `", "` / `": "` (no key
sorting here; `dumps` composes this with `jsort`). -/
def dumpsChars : JsonV → List Char
  | .null => "null".data
  | .bool true => "true".data
  | .bool false => "false".data
  | .num n => intChars n
  | .str s => '"' :: (escList s.data ++ ['"'])
  | .arr xs => '[' :: (dumpsArr xs ++ [']'])
  | .obj kvs => '\x7b' :: (dumpsObj kvs ++ ['\x7d'])
termination_by structural j => j
def dumpsArr : JArr → List Char
  | .nil => []
  | .cons x .nil => dumpsChars x
  | .cons x (.cons y t) => dumpsChars x ++ ',' :: ' ' :: dumpsArr (.cons y t)
termination_by structural l => l
def dumpsObj : JObj → List Char
  | .nil => []
  | .cons k v .nil => '"' :: (escList k.data ++ '"' :: ':' :: ' ' :: dumpsChars v)
  | .cons k v (.cons k2 v2 t) =>
    ('"' :: (escList k.data ++ '"' :: ':' :: ' ' :: dumpsChars v))
      ++ ',' :: ' ' :: dumpsObj (.cons k2 v2 t)
termination_by structural l => l
end

/-- `json.dumps(j, sort_keys=True)`. -/
def dumps (j : JsonV) : String := String.mk (dumpsChars (jsort j))

/-- `github_data.get("meta", {}).get("contentHash", "") if github_data
else ""` (line 419). -/
def githubToken : Option JsonV → JsonV
  | none => .str ""
  | some g =>
    if jtruthy g then (jget ((jget g "meta").getD (.obj .nil)) "contentHash").getD (.str "")
    else .str ""

/-- `json.dumps(yasno_data, sort_keys=True) if yasno_data else ""`
(line 420). -/
def yasnoField : Option JsonV → String
  | none => ""
  | some y => if jtruthy y then dumps y else ""

/-- The `combined` dict of line 418. -/
def combinedJson (gh ya : Option JsonV) : JsonV :=
  .obj (.cons "github" (githubToken gh) (.cons "yasno" (.str (yasnoField ya)) .nil))

/-- The serialised `combined` dict: the exact string fed to SHA-256. -/
def shaInputChars (gh ya : Option JsonV) : List Char :=
  dumpsChars (jsort (combinedJson gh ya))

/-! #### SHA-256 over the UTF-8 bytes (bytes and 32-bit words as `Nat`,
wrapped with `% 2^32`).  Only used opaquely: every fingerprint theorem
factors through equality/inequality of the SHA input. -/

def utf8Bytes (c : Char) : List Nat :=
  let n := c.toNat
  if n < 128 then [n]
  else if n < 2048 then [192 + n / 64, 128 + n % 64]
  else if n < 65536 then [224 + n / 4096, 128 + n / 64 % 64, 128 + n % 64]
  else [240 + n / 262144, 128 + n / 4096 % 64, 128 + n / 64 % 64, 128 + n % 64]

def strBytes (l : List Char) : List Nat := l.flatMap utf8Bytes

def shaK : List Nat :=
  [1116352408, 1899447441, 3049323471, 3921009573, 961987163,
   1508970993, 2453635748, 2870763221, 3624381080, 310598401,
   607225278, 1426881987, 1925078388, 2162078206, 2614888103,
   3248222580, 3835390401, 4022224774, 264347078, 604807628,
   770255983, 1249150122, 1555081692, 1996064986, 2554220882,
   2821834349, 2952996808, 3210313671, 3336571891, 3584528711,
   113926993, 338241895, 666307205, 773529912, 1294757372,
   1396182291, 1695183700, 1986661051, 2177026350, 2456956037,
   2730485921, 2820302411, 3259730800, 3345764771, 3516065817,
   3600352804, 4094571909, 275423344, 430227734, 506948616,
   659060556, 883997877, 958139571, 1322822218, 1537002063,
   1747873779, 1955562222, 2024104815, 2227730452, 2361852424,
   2428436474, 2756734187, 3204031479, 3329325298]

def shaH0 : List Nat :=
  [1779033703, 3144134277, 1013904242, 2773480762,
   1359893119, 2600822924, 528734635, 1541459225]

def rotr32 (n x : Nat) : Nat := (x / 2 ^ n + x % 2 ^ n * 2 ^ (32 - n)) % 2 ^ 32

def smallS0 (x : Nat) : Nat := rotr32 7 x ^^^ rotr32 18 x ^^^ x / 8
def smallS1 (x : Nat) : Nat := rotr32 17 x ^^^ rotr32 19 x ^^^ x / 1024
def bigS0 (x : Nat) : Nat := rotr32 2 x ^^^ rotr32 13 x ^^^ rotr32 22 x
def bigS1 (x : Nat) : Nat := rotr32 6 x ^^^ rotr32 11 x ^^^ rotr32 25 x

def bytesBE8 (n : Nat) : List Nat :=
  [n / 2 ^ 56 % 256, n / 2 ^ 48 % 256, n / 2 ^ 40 % 256, n / 2 ^ 32 % 256,
   n / 2 ^ 24 % 256, n / 2 ^ 16 % 256, n / 2 ^ 8 % 256, n % 256]

/-- Pad to a multiple of 64 bytes: `0x80`, zeros, 64-bit big-endian bit
length. -/
def padBytes (msg : List Nat) : List Nat :=
  msg ++ 128 :: (List.replicate ((64 - (msg.length + 9) % 64) % 64) 0
    ++ bytesBE8 (8 * msg.length))

def bytesToWords : List Nat → List Nat
  | b1 :: b2 :: b3 :: b4 :: rest => (b1 * 16777216 + b2 * 65536 + b3 * 256 + b4)
      :: bytesToWords rest
  | _ => []

def schedExtend : Nat → List Nat → List Nat
  | 0, w => w
  | k + 1, w =>
    let i := w.length
    schedExtend k (w ++ [(w.getD (i - 16) 0 + smallS0 (w.getD (i - 15) 0)
      + w.getD (i - 7) 0 + smallS1 (w.getD (i - 2) 0)) % 2 ^ 32])

def compressGo : List Nat → List Nat → List Nat → List Nat
  | regs, [], _ => regs
  | regs, _, [] => regs
  | regs, w :: ws, k :: ks =>
    let a := regs.getD 0 0
    let b := regs.getD 1 0
    let c := regs.getD 2 0
    let d := regs.getD 3 0
    let e := regs.getD 4 0
    let f := regs.getD 5 0
    let g := regs.getD 6 0
    let h := regs.getD 7 0
    let ch := (e &&& f) ^^^ ((e ^^^ 4294967295) &&& g)
    let temp1 := (h + bigS1 e + ch + k + w) % 2 ^ 32
    let maj := (a &&& b) ^^^ (a &&& c) ^^^ (b &&& c)
    let temp2 := (bigS0 a + maj) % 2 ^ 32
    compressGo [(temp1 + temp2) % 2 ^ 32, a, b, c, (d + temp1) % 2 ^ 32, e, f, g] ws ks

def processChunk (state chunk : List Nat) : List Nat :=
  let ws := schedExtend 48 (bytesToWords chunk)
  let regs := compressGo state ws shaK
  (List.range 8).map (fun i => (state.getD i 0 + regs.getD i 0) % 2 ^ 32)

def chunkGo : Nat → List Nat → List (List Nat)
  | 0, _ => []
  | k + 1, l => if l = [] then [] else l.take 64 :: chunkGo k (l.drop 64)

def hex8 (w : Nat) : List Char :=
  [hexDigit (w / 2 ^ 28 % 16), hexDigit (w / 2 ^ 24 % 16), hexDigit (w / 2 ^ 20 % 16),
   hexDigit (w / 2 ^ 16 % 16), hexDigit (w / 2 ^ 12 % 16), hexDigit (w / 2 ^ 8 % 16),
   hexDigit (w / 2 ^ 4 % 16), hexDigit (w % 16)]

/-- `hashlib.sha256(bytes).hexdigest()`. -/
def sha256hexChars (msg : List Nat) : List Char :=
  let padded := padBytes msg
  ((chunkGo padded.length padded).foldl processChunk shaH0).flatMap hex8

/-- `compute_combined_hash` from `src/main.py` (lines 416-422). -/
def compute_combined_hash (gh ya : Option JsonV) : String :=
  String.mk (sha256hexChars (strBytes (shaInputChars gh ya)))

theorem char_surrogate_free (c : Char) :
    c.toNat < 55296 ∨ (57343 < c.toNat ∧ c.toNat < 1114112) := c.valid

theorem unhexDigit_hexDigit (d : Nat) (h : d < 16) : unhexDigit (hexDigit d) = d := by
  interval_cases d <;> rfl

theorem unhex4_hex4 (n : Nat) (h : n < 65536) :
    unhex4 (hexDigit (n / 4096 % 16)) (hexDigit (n / 256 % 16)) (hexDigit (n / 16 % 16))
      (hexDigit (n % 16)) = n := by
  rw [unhex4, unhexDigit_hexDigit _ (by omega), unhexDigit_hexDigit _ (by omega),
    unhexDigit_hexDigit _ (by omega), unhexDigit_hexDigit _ (by omega)]
  omega

theorem decodeU_not_surr (n : Nat) (r3 : List Char) (h : ¬(55296 ≤ n ∧ n < 56320)) :
    decodeU n r3 = some (Char.ofNat n, r3) := by
  unfold decodeU
  rw [if_neg h]

theorem decodeU_surr (n : Nat) (e1 e2 e3 e4 : Char) (r4 : List Char)
    (h : 55296 ≤ n ∧ n < 56320) :
    decodeU n ('\\' :: 'u' :: e1 :: e2 :: e3 :: e4 :: r4)
      = some (Char.ofNat (65536 + (n - 55296) * 1024 + (unhex4 e1 e2 e3 e4 - 56320)), r4) := by
  unfold decodeU
  rw [if_pos h]
  rfl

theorem decode1_cons_ne (c : Char) (r : List Char) (h : c ≠ '\\') :
    decode1 (c :: r) = some (c, r) := by
  simp only [decode1]
  rw [if_neg h]

theorem decode1_u (d1 d2 d3 d4 : Char) (r3 : List Char) :
    decode1 ('\\' :: 'u' :: d1 :: d2 :: d3 :: d4 :: r3) = decodeU (unhex4 d1 d2 d3 d4) r3 := by
  rfl

theorem decode1_escChar (c : Char) (r : List Char) :
    decode1 (escChar c ++ r) = some (c, r) := by
  rw [escChar]
  split_ifs with h1 h2 h3 h4 h5 h6 h7 h8 h9
  · subst h1; rfl
  · subst h2; rfl
  · subst h3; rfl
  · subst h4; rfl
  · subst h5; rfl
  · subst h6; rfl
  · subst h7; rfl
  · -- basic multilingual plane, `\uXXXX`
    rw [hex4]
    simp only [List.cons_append, List.nil_append]
    rw [decode1_u, unhex4_hex4 _ h9,
      decodeU_not_surr _ _ (by rcases char_surrogate_free c with h | h <;> omega),
      Char.ofNat_toNat]
  · -- astral plane, surrogate pair
    have hval := char_surrogate_free c
    have hv : c.toNat - 65536 < 1048576 := by rcases hval with h | h <;> omega
    have hhi16 : 55296 + (c.toNat - 65536) / 1024 < 65536 := by omega
    have hlo16 : 56320 + (c.toNat - 65536) % 1024 < 65536 := by omega
    rw [hex4, hex4]
    simp only [List.cons_append, List.nil_append, List.append_assoc]
    rw [decode1_u, unhex4_hex4 _ hhi16, decodeU_surr _ _ _ _ _ _ (by omega),
      unhex4_hex4 _ hlo16]
    have harg : 65536 + (55296 + (c.toNat - 65536) / 1024 - 55296) * 1024
        + (56320 + (c.toNat - 65536) % 1024 - 56320) = c.toNat := by omega
    rw [harg, Char.ofNat_toNat]
  · -- printable literal
    have step : ([c] ++ r) = c :: r := rfl
    rw [step, decode1_cons_ne _ _ h2]

theorem escChar_ne_nil (c : Char) : escChar c ≠ [] := by
  rw [escChar]
  split_ifs <;> simp

theorem escChar_head_ne_quote (c x : Char) (hx : (escChar c).head? = some x) : x ≠ '"' := by
  rw [escChar] at hx
  split_ifs at hx with h1 h2 h3 h4 h5 h6 h7 h8 h9 <;>
    simp only [List.head?_cons, Option.some.injEq] at hx <;> subst hx
  · decide
  · decide
  · decide
  · decide
  · decide
  · decide
  · decide
  · decide
  · decide
  · exact h1

theorem escList_append_cancel : ∀ (l1 l2 r1 r2 : List Char),
    escList l1 ++ r1 = escList l2 ++ r2 → r1.head? = some '"' → r2.head? = some '"' →
    l1 = l2 ∧ r1 = r2 := by
  intro l1
  induction l1 with
  | nil =>
    intro l2 r1 r2 heq hr1 hr2
    cases l2 with
    | nil => exact ⟨rfl, by simpa [escList] using heq⟩
    | cons d ds =>
      exfalso
      simp only [escList, List.nil_append, List.append_assoc] at heq
      rcases he : escChar d with _ | ⟨x, t⟩
      · exact escChar_ne_nil d he
      · rw [he] at heq
        rw [heq] at hr1
        simp only [List.cons_append, List.head?_cons, Option.some.injEq] at hr1
        exact escChar_head_ne_quote d x (by rw [he]; rfl) hr1
  | cons c cs ih =>
    intro l2 r1 r2 heq hr1 hr2
    cases l2 with
    | nil =>
      exfalso
      simp only [escList, List.nil_append, List.append_assoc] at heq
      rcases he : escChar c with _ | ⟨x, t⟩
      · exact escChar_ne_nil c he
      · rw [he] at heq
        rw [← heq] at hr2
        simp only [List.cons_append, List.head?_cons, Option.some.injEq] at hr2
        exact escChar_head_ne_quote c x (by rw [he]; rfl) hr2
    | cons d ds =>
      have e1 : decode1 (escList (c :: cs) ++ r1) = some (c, escList cs ++ r1) := by
        simp only [escList, List.append_assoc]
        exact decode1_escChar c _
      have e2 : decode1 (escList (d :: ds) ++ r2) = some (d, escList ds ++ r2) := by
        simp only [escList, List.append_assoc]
        exact decode1_escChar d _
      rw [heq, e2] at e1
      simp only [Option.some.injEq, Prod.mk.injEq] at e1
      obtain ⟨rfl, htail⟩ := e1
      obtain ⟨h1, h2⟩ := ih ds r1 r2 htail.symm hr1 hr2
      exact ⟨by rw [h1], h2⟩

theorem shaInputChars_decomp (gh ya : Option JsonV) :
    shaInputChars gh ya
      = '\x7b' :: '"' :: 'g' :: 'i' :: 't' :: 'h' :: 'u' :: 'b' :: '"' :: ':' :: ' ' ::
        ((dumpsChars (jsort (githubToken gh)) ++
          (',' :: ' ' :: '"' :: 'y' :: 'a' :: 's' :: 'n' :: 'o' :: '"' :: ':' :: ' ' :: '"' ::
            (escList (yasnoField ya).data ++ ['"']))) ++ ['\x7d']) := rfl

theorem jobjInsert_shape (k : String) (v : JsonV) :
    ∀ o : JObj, ∃ a b c, jobjInsert k v o = .cons a b c := by
  intro o
  cases o with
  | nil => exact ⟨k, v, .nil, rfl⟩
  | cons k2 v2 t =>
    rw [jobjInsert]
    split_ifs
    · exact ⟨k, v, .cons k2 v2 t, rfl⟩
    · exact ⟨k2, v2, jobjInsert k v t, rfl⟩

theorem jtruthy_jsort (j : JsonV) : jtruthy (jsort j) = jtruthy j := by
  cases j with
  | null => rfl
  | bool b => rfl
  | num n => rfl
  | str s => rfl
  | arr xs => cases xs <;> rfl
  | obj kvs =>
    cases kvs with
    | nil => rfl
    | cons k v t =>
      obtain ⟨a, b, c, hc⟩ := jobjInsert_shape k (jsort v) (jsortObj t)
      show jtruthy (.obj (jobjInsert k (jsort v) (jsortObj t))) = true
      rw [hc]
      rfl

theorem yasno_tail_cancel (ya1 ya2 : Option JsonV)
    (h : (',' :: ' ' :: '"' :: 'y' :: 'a' :: 's' :: 'n' :: 'o' :: '"' :: ':' :: ' ' :: '"' ::
        (escList (yasnoField ya1).data ++ ['"']) : List Char)
      = ',' :: ' ' :: '"' :: 'y' :: 'a' :: 's' :: 'n' :: 'o' :: '"' :: ':' :: ' ' :: '"' ::
        (escList (yasnoField ya2).data ++ ['"'])) :
    yasnoField ya1 = yasnoField ya2 := by
  simp only [List.cons.injEq, true_and] at h
  have h4 := escList_append_cancel _ _ _ _ h rfl rfl
  exact String.ext h4.1

/-- C5 amended: the fingerprint is a function of exactly the pair
(extracted github `meta.contentHash` token, canonical sorted serialisation
of the yasno payload): equal pairs give byte-identical digests (so the
digest is deterministic and invariant under key re-ordering in either
payload), and distinct yasno serialisations or distinct string tokens give
distinct SHA-256 *inputs* (content sensitivity holds at the digest-input
level; nothing outside the github contentHash token enters the digest). -/
theorem compute_combined_hash_spec :
    (∀ gh1 gh2 ya1 ya2 : Option JsonV,
      githubToken gh1 = githubToken gh2 → yasnoField ya1 = yasnoField ya2 →
      compute_combined_hash gh1 ya1 = compute_combined_hash gh2 ya2) ∧
    (∀ gh : Option JsonV, ∀ ya1 ya2 : JsonV, jsort ya1 = jsort ya2 →
      compute_combined_hash gh (some ya1) = compute_combined_hash gh (some ya2)) ∧
    (∀ gh ya1 ya2, shaInputChars gh ya1 = shaInputChars gh ya2 →
      yasnoField ya1 = yasnoField ya2) ∧
    (∀ gh1 gh2 ya1 ya2 t1 t2, githubToken gh1 = .str t1 → githubToken gh2 = .str t2 →
      shaInputChars gh1 ya1 = shaInputChars gh2 ya2 →
      t1 = t2 ∧ yasnoField ya1 = yasnoField ya2) := by
  have hkey : ∀ gh1 gh2 ya1 ya2 : Option JsonV,
      githubToken gh1 = githubToken gh2 → yasnoField ya1 = yasnoField ya2 →
      shaInputChars gh1 ya1 = shaInputChars gh2 ya2 := by
    intro gh1 gh2 ya1 ya2 hT hY
    unfold shaInputChars combinedJson
    rw [hT, hY]
  have hcong : ∀ gh1 gh2 ya1 ya2 : Option JsonV,
      githubToken gh1 = githubToken gh2 → yasnoField ya1 = yasnoField ya2 →
      compute_combined_hash gh1 ya1 = compute_combined_hash gh2 ya2 := by
    intro gh1 gh2 ya1 ya2 hT hY
    unfold compute_combined_hash
    rw [hkey gh1 gh2 ya1 ya2 hT hY]
  refine ⟨hcong, ?_, ?_, ?_⟩
  · intro gh ya1 ya2 h
    apply hcong _ _ _ _ rfl
    have ht : jtruthy ya1 = jtruthy ya2 := by
      rw [← jtruthy_jsort ya1, ← jtruthy_jsort ya2, h]
    show (if jtruthy ya1 then dumps ya1 else "") = (if jtruthy ya2 then dumps ya2 else "")
    by_cases hb : jtruthy ya1
    · rw [if_pos hb, if_pos (by rw [← ht]; exact hb)]
      unfold dumps
      rw [h]
    · rw [if_neg hb, if_neg (by rw [← ht]; exact hb)]
  · intro gh ya1 ya2 heq
    rw [shaInputChars_decomp, shaInputChars_decomp] at heq
    simp only [List.cons.injEq, true_and] at heq
    have h2 := List.append_cancel_right heq
    have h3 := List.append_cancel_left h2
    exact yasno_tail_cancel _ _ h3
  · intro gh1 gh2 ya1 ya2 t1 t2 hT1 hT2 heq
    rw [shaInputChars_decomp, shaInputChars_decomp] at heq
    simp only [List.cons.injEq, true_and] at heq
    have h2 := List.append_cancel_right heq
    rw [hT1, hT2] at h2
    have hx : ∀ t : String, dumpsChars (jsort (.str t)) = '"' :: (escList t.data ++ ['"']) :=
      fun _ => rfl
    rw [hx, hx] at h2
    simp only [List.cons_append, List.append_assoc, List.cons.injEq, true_and,
      List.singleton_append] at h2
    have h4 := escList_append_cancel _ _ _ _ h2 rfl rfl
    refine ⟨String.ext h4.1, ?_⟩
    have h5 := h4.2
    simp only [List.nil_append, List.cons.injEq, true_and] at h5
    have h6 := escList_append_cancel _ _ _ _ h5 rfl rfl
    exact String.ext h6.1

/-- C5 counterexample: two github payloads that differ in a field outside
`meta.contentHash` (so the raw payload content changed) produce
byte-identical digests — only the `contentHash` token enters the hash, so
"any single changed field produces a different digest" fails. -/
theorem compute_combined_hash_github_body_ignored :
    (JsonV.obj (.cons "meta" (.obj (.cons "contentHash" (.str "h1") .nil))
        (.cons "extra" (.num 1) .nil)))
      ≠ (JsonV.obj (.cons "meta" (.obj (.cons "contentHash" (.str "h1") .nil))
        (.cons "extra" (.num 2) .nil))) ∧
    compute_combined_hash
        (some (.obj (.cons "meta" (.obj (.cons "contentHash" (.str "h1") .nil))
          (.cons "extra" (.num 1) .nil))))
        (some (.obj (.cons "k" (.num 7) .nil)))
      = compute_combined_hash
        (some (.obj (.cons "meta" (.obj (.cons "contentHash" (.str "h1") .nil))
          (.cons "extra" (.num 2) .nil))))
        (some (.obj (.cons "k" (.num 7) .nil))) := by
  constructor
  · decide
  · have h : shaInputChars
        (some (.obj (.cons "meta" (.obj (.cons "contentHash" (.str "h1") .nil))
          (.cons "extra" (.num 1) .nil))))
        (some (.obj (.cons "k" (.num 7) .nil)))
      = shaInputChars
        (some (.obj (.cons "meta" (.obj (.cons "contentHash" (.str "h1") .nil))
          (.cons "extra" (.num 2) .nil))))
        (some (.obj (.cons "k" (.num 7) .nil))) := by decide
    unfold compute_combined_hash
    rw [h]

/-- Witness for C5: reordering the keys of the yasno payload leaves the
digest unchanged. -/
theorem compute_combined_hash_spec_witness :
    compute_combined_hash
        (some (.obj (.cons "meta" (.obj (.cons "contentHash" (.str "tok") .nil)) .nil)))
        (some (.obj (.cons "b" (.num 2) (.cons "a" (.num 1) .nil))))
      = compute_combined_hash
        (some (.obj (.cons "meta" (.obj (.cons "contentHash" (.str "tok") .nil)) .nil)))
        (some (.obj (.cons "a" (.num 1) (.cons "b" (.num 2) .nil)))) :=
  compute_combined_hash_spec.2.1
    (some (.obj (.cons "meta" (.obj (.cons "contentHash" (.str "tok") .nil)) .nil)))
    (.obj (.cons "b" (.num 2) (.cons "a" (.num 1) .nil)))
    (.obj (.cons "a" (.num 1) (.cons "b" (.num 2) .nil)))
    (by decide)

/-! ### The extraction pipeline and `main` (lines 130-160, 208-244, 476-533)

`datetime.fromtimestamp` (timezone-dependent) and `datetime.fromisoformat`
(library parsing) are environment collaborators passed as `Int → Date` /
`String → Date` parameters. -/

def jobjKeys : JObj → List String
  | .nil => []
  | .cons k _ t => k :: jobjKeys t

/-- Python `d.keys()` of a JSON object. -/
def jkeys : JsonV → List String
  | .obj kvs => jobjKeys kvs
  | _ => []

def parseNatChars : List Char → Nat → Nat
  | [], acc => acc
  | c :: t, acc =>
    if 48 ≤ c.toNat ∧ c.toNat ≤ 57 then parseNatChars t (acc * 10 + (c.toNat - 48)) else acc

/-- Python `int(s)` on the decimal timestamp keys of the github payload.
Non-numeric keys (where Python would raise `ValueError`) are outside the
modelled domain. -/
def parseIntStr (s : String) : Int :=
  match s.data with
  | '-' :: t => -(parseNatChars t 0 : Int)
  | l => (parseNatChars l 0 : Int)

/-- `extract_github_schedules` from `src/main.py` (lines 130-160). -/
def extract_github_schedules (data : JsonV) (groups : List String)
    (fromtimestamp : Int → Date) : Schedules :=
  let fact_data := (jget ((jget data "fact").getD (.obj .nil)) "data").getD (.obj .nil)
  if jtruthy fact_data = false then []
  else
    let sorted_days :=
      (sortByB (fun a b => decide (parseIntStr a ≤ parseIntStr b)) (jkeys fact_data)).take 2
    groups.map (fun group =>
      (group, sorted_days.foldl (fun acc day_ts =>
        let day_data := (jget ((jget fact_data day_ts).getD (.obj .nil)) group).getD .null
        if jtruthy day_data = false then acc
        else
          let date := fromtimestamp (parseIntStr day_ts)
          aset acc (strftimeYMD date) ⟨parse_github_day day_data, date⟩) []))

/-- The `.replace("+02:00", "+00:00").replace("+00:00", "")` step of
line 235. -/
def isoFix (s : String) : String := replaceAll (replaceAll s "+02:00" "+00:00") "+00:00" ""

/-- `extract_yasno_schedules` from `src/main.py` (lines 208-244).  A
`"date"` value that is not a string (where Python would raise on
`.replace`) is outside the modelled domain. -/
def extract_yasno_schedules (data : JsonV) (groups : List String)
    (parseIso : String → Date) : Schedules :=
  if jtruthy data = false then []
  else
    groups.foldl (fun acc group =>
      let group_key := replaceAll group "GPV" ""
      match jget data group_key with
      | none => acc
      | some group_data =>
        acc ++ [(group, ["today", "tomorrow"].foldl (fun dacc day_key =>
          match jget group_data day_key with
          | none => dacc
          | some day_data =>
            if jtruthy day_data = false then dacc
            else
              match jget day_data "date" with
              | some (.str date_str_full) =>
                let date := parseIso (isoFix date_str_full)
                aset dacc (strftimeYMD date) ⟨parse_yasno_day day_data, date⟩
              | some _ => dacc
              | none => dacc) [])]) []

/-- Python falsiness of an optional string (`None` or `""`). -/
def strOptFalsy : Option String → Bool
  | none => true
  | some s => s = ""

/-- `send_telegram_message` from `src/main.py` (lines 442-471): `false`
without configured credentials; otherwise one part for short messages,
split on the triple newline for long ones, and success iff every part's
delivery succeeds (`deliver` is the external HTTP outcome; Python stops at
the first failing part, which yields the same boolean). -/
def send_telegram_message (botToken chanId : Option String)
    (deliver : String → Bool) (message : String) : Bool :=
  if strOptFalsy botToken || strOptFalsy chanId then false
  else
    let parts := if message.length ≤ 4000 then [message] else message.splitOn "\n\n\n"
    parts.all deliver

/-- The message `main` computes (lines 495-521), `none` when a guard makes
`main` return before the send: both fetches failed/falsy, unchanged
fingerprint, or no renderable content (including the provably-unreachable
raise inside formatting, cf. `format_group_message_total`). -/
def main_message (gh ya : Option JsonV) (groups : List String)
    (fromtimestamp : Int → Date) (parseIso : String → Date)
    (cached : Option String) : Option String :=
  if jtruthyOpt gh = false ∧ jtruthyOpt ya = false then none
  else if some (compute_combined_hash gh ya) = cached then none
  else
    let github_schedules := if jtruthyOpt gh then
        extract_github_schedules (gh.getD .null) groups fromtimestamp else []
    let yasno_schedules := if jtruthyOpt ya then
        extract_yasno_schedules (ya.getD .null) groups parseIso else []
    match format_full_message github_schedules yasno_schedules groups with
    | none => none
    | some none => none
    | some (some m) => if m = "" then none else some m

/-- The cache-file content after one run of `main` (lines 476-533), given
the content `cached` before the run.  An uncaught exception leaves the file
untouched, as does every early return; only the `send_telegram_message`
success branch writes (line 530). -/
def main_cache_after (gh ya : Option JsonV) (groups : List String)
    (fromtimestamp : Int → Date) (parseIso : String → Date)
    (cached : Option String) (botToken chanId : Option String)
    (deliver : String → Bool) : Option String :=
  if jtruthyOpt gh = false ∧ jtruthyOpt ya = false then cached
  else if some (compute_combined_hash gh ya) = cached then cached
  else
    let github_schedules := if jtruthyOpt gh then
        extract_github_schedules (gh.getD .null) groups fromtimestamp else []
    let yasno_schedules := if jtruthyOpt ya then
        extract_yasno_schedules (ya.getD .null) groups parseIso else []
    match format_full_message github_schedules yasno_schedules groups with
    | none => cached
    | some none => cached
    | some (some m) =>
      if m = "" then cached
      else if send_telegram_message botToken chanId deliver m then
        some (compute_combined_hash gh ya)
      else cached

/-- C9: the persisted fingerprint is updated only on successful delivery —
whenever `main` does not reach the send, or the send (of any part) fails,
the cache keeps its previous content; exactly when a message is produced
and `send_telegram_message` reports success is the newly computed
fingerprint written. -/
theorem main_fingerprint_persistence (gh ya : Option JsonV) (groups : List String)
    (fromtimestamp : Int → Date) (parseIso : String → Date)
    (cached : Option String) (botToken chanId : Option String) (deliver : String → Bool) :
    (match main_message gh ya groups fromtimestamp parseIso cached with
     | none =>
       main_cache_after gh ya groups fromtimestamp parseIso cached botToken chanId deliver
         = cached
     | some m =>
       main_cache_after gh ya groups fromtimestamp parseIso cached botToken chanId deliver
         = (if send_telegram_message botToken chanId deliver m then
             some (compute_combined_hash gh ya) else cached)) := by
  by_cases h1 : jtruthyOpt gh = false ∧ jtruthyOpt ya = false
  · simp only [main_message, main_cache_after, if_pos h1]
  · by_cases h2 : some (compute_combined_hash gh ya) = cached
    · simp only [main_message, main_cache_after, if_neg h1, if_pos h2]
    · simp only [main_message, main_cache_after, if_neg h1, if_neg h2]
      cases hf : format_full_message
          (if jtruthyOpt gh = true then
            extract_github_schedules (gh.getD .null) groups fromtimestamp else [])
          (if jtruthyOpt ya = true then
            extract_yasno_schedules (ya.getD .null) groups parseIso else [])
          groups with
      | none => simp [hf]
      | some om =>
        cases om with
        | none => simp [hf]
        | some m =>
          by_cases hm : m = ""
          · simp [hf, hm]
          · simp [hf, hm]
